import Mathlib

/-!
Verification development for the country/currency HTTP service
(`countries/services.py`, `countries/views.py`, `countries/utils.py`).

The Django ORM store is modelled as a list of rows; `update_or_create`
with a case-insensitive name lookup becomes `upsertRow`; the two external
fetches become `Except` inputs to `refresh_countries`; the per-country
random multiplier drawn by `random.uniform(1000, 2000)` becomes an
explicit stream `ms : Nat → ℚ` consumed one value per processed entry.
Python `Decimal` arithmetic is modelled over `ℚ` with an explicit
half-even quantization to two decimal places (`Decimal.quantize` with the
default rounding mode).
-/

/-- A stored country row.  Modelled from the spec: the `Country` Django
model itself (models.py) is not among the provided sources; its fields
follow spec section 3 (name; optional capital, region, currency code,
exchange rate, flag URL; non-negative population; `estimated_gdp`
nullable in the column but written as 0 when uncomputable; a refresh
timestamp, modelled as `Nat`). -/
structure Country where
  name : String
  capital : Option String
  region : Option String
  population : Nat
  currency_code : Option String
  exchange_rate : Option ℚ
  estimated_gdp : Option ℚ
  flag_url : Option String
  last_refreshed_at : Nat
deriving DecidableEq, Repr

/-- One element of the upstream `currencies` array: a JSON object whose
`code` key may be missing (`first_currency.get("code")`). -/
structure CurrencyObj where
  code : Option String
deriving DecidableEq, Repr

/-- The raw `currencies` value of an upstream country entry.
`missing` models an absent key (Python `country_data.get("currencies", [])`
then yields `[]`); `notList` models a present value that is not a list,
e.g. a JSON object or string; `arr` models an actual JSON array. -/
inductive CurrenciesField where
  | missing
  | notList
  | arr (cs : List CurrencyObj)
deriving DecidableEq, Repr

/-- One country entry as returned by the REST Countries API. -/
structure CountryEntry where
  name : String
  capital : Option String
  region : Option String
  population : Nat
  flag : Option String
  currencies : CurrenciesField
deriving DecidableEq, Repr

/-- `CountryService.extract_currency_code`: `None` when the currencies
value is falsy (absent key defaulted to `[]`, or an empty list) or not a
list; otherwise the `code` of the first element, with no fallback to
later elements. -/
def extract_currency_code : CurrenciesField → Option String
  | .missing => none
  | .notList => none
  | .arr [] => none
  | .arr (c :: _) => c.code

/-- Python `str.strip()`: drop leading and trailing whitespace.  Defined
structurally over the character list so that concrete instances evaluate
inside the kernel. -/
def pyStrip (s : String) : String :=
  ⟨((s.data.dropWhile Char.isWhitespace).reverse.dropWhile
      Char.isWhitespace).reverse⟩

/-- Python `str.lower()`, the case folding behind Django `iexact`
lookups, for the basic latin letters.  Defined structurally over the
character list so that concrete instances evaluate inside the kernel. -/
def lowerStr (s : String) : String :=
  ⟨s.data.map Char.toLower⟩

/-- Round a rational to the nearest integer, ties to the even integer:
the rounding performed by `Decimal.quantize` under the default
`ROUND_HALF_EVEN` context. -/
def roundHalfEven (q : ℚ) : ℤ :=
  if q - ⌊q⌋ < 1/2 then ⌊q⌋
  else if (1 : ℚ)/2 < q - ⌊q⌋ then ⌊q⌋ + 1
  else if ⌊q⌋ % 2 = 0 then ⌊q⌋ else ⌊q⌋ + 1

/-- `gdp.quantize(Decimal("0.01"))`: round to two decimal places,
half-even. -/
def round2 (q : ℚ) : ℚ := (roundHalfEven (q * 100) : ℚ) / 100

/-- `CountryService.calculate_estimated_gdp`.  The Python code returns
`None` when the rate is `None` or zero (`if not exchange_rate or
exchange_rate == 0`); otherwise `population × multiplier / rate`
quantized to two decimal places.  The random multiplier is passed in
explicitly. -/
def calculate_estimated_gdp (population : Nat) (exchange_rate : Option ℚ)
    (multiplier : ℚ) : Option ℚ :=
  match exchange_rate with
  | none => none
  | some rate =>
    if rate = 0 then none
    else some (round2 ((population : ℚ) * multiplier / rate))

/-- `exchange_rates.get(code)` on the rate table fetched from the
exchange-rate API, modelled as an association list. -/
def lookupRate : List (String × ℚ) → String → Option ℚ
  | [], _ => none
  | (k, v) :: rest, code => if k = code then some v else lookupRate rest code

/-- The row built for one upstream entry inside the loop of
`CountryService.refresh_countries`: currency-code extraction, guarded
rate lookup (`if currency_code:` is false for the empty string, and
`if rate_value:` is false for a zero rate), GDP computation, and the
`estimated_gdp if estimated_gdp else Decimal(0)` null-to-zero fallback.
`name` is the already-trimmed name, `m` the multiplier drawn for this
entry, `t` the batch timestamp. -/
def processEntry (e : CountryEntry) (name : String) (rates : List (String × ℚ))
    (m : ℚ) (t : Nat) : Country :=
  let currency_code := extract_currency_code e.currencies
  let exchange_rate : Option ℚ :=
    match currency_code with
    | none => none
    | some code =>
      if code = "" then none
      else
        match lookupRate rates code with
        | none => none
        | some rv => if rv = 0 then none else some rv
  let estimated_gdp := calculate_estimated_gdp e.population exchange_rate m
  { name := name
    capital := e.capital
    region := e.region
    population := e.population
    currency_code := currency_code
    exchange_rate := exchange_rate
    estimated_gdp := some (match estimated_gdp with
      | some g => if g = 0 then 0 else g
      | none => 0)
    flag_url := e.flag
    last_refreshed_at := t }

/-- `Country.objects.update_or_create(name__iexact=name, defaults=...)`:
replace the (first) row whose name matches case-insensitively, else
append a new row.  The boolean is the Django `created` flag. -/
def upsertRow : List Country → Country → List Country × Bool
  | [], row => ([row], true)
  | r :: rs, row =>
    if lowerStr r.name = lowerStr row.name then (row :: rs, false)
    else
      let p := upsertRow rs row
      (r :: p.1, p.2)

/-- The per-country loop of `CountryService.refresh_countries`:
skip entries whose trimmed name is empty, otherwise upsert the processed
row and bump the created/updated counter.  `i` indexes the random
stream; it advances only for processed entries. -/
def refreshLoop (rates : List (String × ℚ)) (ms : Nat → ℚ) (t : Nat) :
    List CountryEntry → List Country → Nat → Nat → Nat →
    List Country × Nat × Nat
  | [], store, _, created, updated => (store, created, updated)
  | e :: rest, store, i, created, updated =>
    if pyStrip e.name = "" then
      refreshLoop rates ms t rest store i created updated
    else
      let row := processEntry e (pyStrip e.name) rates (ms i) t
      let p := upsertRow store row
      if p.2 then refreshLoop rates ms t rest p.1 (i + 1) (created + 1) updated
      else refreshLoop rates ms t rest p.1 (i + 1) created (updated + 1)

/-- The dictionary returned by `CountryService.refresh_countries`. -/
structure RefreshResult where
  total_countries : Nat
  created : Nat
  updated : Nat
  last_refreshed_at : Nat
deriving DecidableEq, Repr

/-- `CountryService.refresh_countries`.  The two external fetches are
modelled as `Except` inputs; both are forced (in source order) before
any write, so a failed fetch aborts with the store untouched.  The
batch timestamp `refresh_time` (`timezone.now()`) is captured once. -/
def refresh_countries (store : List Country)
    (countriesRes : Except String (List CountryEntry))
    (ratesRes : Except String (List (String × ℚ)))
    (ms : Nat → ℚ) (refresh_time : Nat) :
    Except String (List Country × RefreshResult) :=
  match countriesRes with
  | .error msg => .error msg
  | .ok countries_data =>
    match ratesRes with
    | .error msg => .error msg
    | .ok exchange_rates =>
      let out :=
        refreshLoop exchange_rates ms refresh_time countries_data store 0 0 0
      .ok (out.1, ⟨out.2.1 + out.2.2, out.2.1, out.2.2, refresh_time⟩)

/-- The `POST /countries/refresh` view: 200 with the new store on
success, 503 with the store unchanged when `ExternalAPIError` is
raised. -/
def refresh_view (store : List Country)
    (countriesRes : Except String (List CountryEntry))
    (ratesRes : Except String (List (String × ℚ)))
    (ms : Nat → ℚ) (t : Nat) : Nat × List Country :=
  match refresh_countries store countriesRes ratesRes ms t with
  | .ok out => (200, out.1)
  | .error _ => (503, store)

/-- The rows matching `name__iexact=name`. -/
def iexactMatches (store : List Country) (name : String) : List Country :=
  store.filter (fun r => lowerStr r.name == lowerStr name)

/-- Outcome of Django `Country.objects.get(name__iexact=name)`:
the unique match, `DoesNotExist`, or `MultipleObjectsReturned`. -/
inductive GetOutcome where
  | found (c : Country)
  | notFound
  | multiple
deriving DecidableEq, Repr

/-- `Country.objects.get(name__iexact=name)`. -/
def objectsGet (store : List Country) (name : String) : GetOutcome :=
  match iexactMatches store name with
  | [] => .notFound
  | [c] => .found c
  | _ :: _ :: _ => .multiple

/-- `GET /countries/:name` (`country_detail`): 200 with the row, 404 on
`DoesNotExist`; an uncaught `MultipleObjectsReturned` surfaces as 500. -/
def country_detail_get (store : List Country) (name : String) :
    Nat × Option Country :=
  match objectsGet store name with
  | .found c => (200, some c)
  | .notFound => (404, none)
  | .multiple => (500, none)

/-- Remove the first row matching the name case-insensitively: the
effect of `country.delete()` on the instance returned by `objects.get`,
which succeeds only when the match is unique. -/
def deleteFirstIexact : List Country → String → List Country
  | [], _ => []
  | r :: rs, name =>
    if lowerStr r.name = lowerStr name then rs
    else r :: deleteFirstIexact rs name

/-- `DELETE /countries/:name` (`country_detail`): 200 and the row
removed, 404 on `DoesNotExist`, 500 on `MultipleObjectsReturned`. -/
def country_detail_delete (store : List Country) (name : String) :
    Nat × List Country :=
  match objectsGet store name with
  | .found _ => (200, deleteFirstIexact store name)
  | .notFound => (404, store)
  | .multiple => (500, store)

/-- Sort key for `order_by(F("estimated_gdp").asc(nulls_last=True))`:
SQL NULL sorts above every value. -/
def gdpKeyAsc (r : Country) : WithTop ℚ :=
  match r.estimated_gdp with
  | none => ⊤
  | some g => (g : WithTop ℚ)

/-- Sort key for `order_by(F("estimated_gdp").desc(nulls_last=True))`:
descending by value is ascending by the negated value, with SQL NULL
still above every value. -/
def gdpKeyDesc (r : Country) : WithTop ℚ :=
  match r.estimated_gdp with
  | none => ⊤
  | some g => ((-g : ℚ) : WithTop ℚ)

/-- Row order produced by `estimated_gdp` ascending, nulls last. -/
def gdpAscLe (a b : Country) : Prop := gdpKeyAsc a ≤ gdpKeyAsc b

/-- Row order produced by `estimated_gdp` descending, nulls last. -/
def gdpDescLe (a b : Country) : Prop := gdpKeyDesc a ≤ gdpKeyDesc b

instance : DecidableRel gdpAscLe := fun a b =>
  inferInstanceAs (Decidable (gdpKeyAsc a ≤ gdpKeyAsc b))

instance : DecidableRel gdpDescLe := fun a b =>
  inferInstanceAs (Decidable (gdpKeyDesc a ≤ gdpKeyDesc b))

instance : IsTotal Country gdpAscLe := ⟨fun a b => le_total (gdpKeyAsc a) (gdpKeyAsc b)⟩

instance : IsTrans Country gdpAscLe := ⟨fun _ _ _ h h2 => le_trans h h2⟩

instance : IsTotal Country gdpDescLe := ⟨fun a b => le_total (gdpKeyDesc a) (gdpKeyDesc b)⟩

instance : IsTrans Country gdpDescLe := ⟨fun _ _ _ h h2 => le_trans h h2⟩

/-- Row order for `order_by("population")`. -/
def popAscLe (a b : Country) : Prop := a.population ≤ b.population

/-- Row order for `order_by("-population")`. -/
def popDescLe (a b : Country) : Prop := b.population ≤ a.population

/-- Row order for `order_by("name")`. -/
def nameAscLe (a b : Country) : Prop := a.name ≤ b.name

/-- Row order for `order_by("-name")`. -/
def nameDescLe (a b : Country) : Prop := b.name ≤ a.name

instance : DecidableRel popAscLe := fun a b =>
  inferInstanceAs (Decidable (a.population ≤ b.population))

instance : DecidableRel popDescLe := fun a b =>
  inferInstanceAs (Decidable (b.population ≤ a.population))

instance : DecidableRel nameAscLe := fun a b =>
  inferInstanceAs (Decidable (a.name ≤ b.name))

instance : DecidableRel nameDescLe := fun a b =>
  inferInstanceAs (Decidable (b.name ≤ a.name))

/-- The validated `sort` query parameter of `GET /countries`. -/
inductive SortKey where
  | gdp_desc
  | gdp_asc
  | population_desc
  | population_asc
  | name_desc
  | name_asc
deriving DecidableEq, Repr

/-- `GET /countries` (`list_countries`): optional case-insensitive
region and currency filters (a NULL column never matches `iexact`),
then one of the six orderings.  The ordering itself is modelled with
insertion sort, which realises the required sortedness and permutation
properties of the SQL `ORDER BY`. -/
def list_countries (store : List Country) (region currency : Option String)
    (sort : Option SortKey) : List Country :=
  let q := store
  let q := match region with
    | some reg => q.filter (fun r => match r.region with
        | some s => lowerStr s == lowerStr reg
        | none => false)
    | none => q
  let q := match currency with
    | some cur => q.filter (fun r => match r.currency_code with
        | some c => lowerStr c == lowerStr cur
        | none => false)
    | none => q
  match sort with
  | some .gdp_desc => q.insertionSort gdpDescLe
  | some .gdp_asc => q.insertionSort gdpAscLe
  | some .population_desc => q.insertionSort popDescLe
  | some .population_asc => q.insertionSort popAscLe
  | some .name_desc => q.insertionSort nameDescLe
  | some .name_asc => q.insertionSort nameAscLe
  | none => q

/-- A row carries a usable GDP in the sense of claim C1: a non-null,
non-zero `estimated_gdp`. -/
def hasUsableGdp (r : Country) : Bool :=
  match r.estimated_gdp with
  | some g => g != 0
  | none => false

/-- All rows without a usable GDP sit at the tail of the list: no row
with a usable GDP appears after one without. -/
def usableAtTail (l : List Country) : Prop :=
  ∀ i j : Fin l.length, i < j →
    hasUsableGdp (l.get i) = false → hasUsableGdp (l.get j) = false

/-- All rows with a NULL `estimated_gdp` sit at the tail of the list. -/
def nullsAtTail (l : List Country) : Prop :=
  ∀ i j : Fin l.length, i < j →
    (l.get i).estimated_gdp = none → (l.get j).estimated_gdp = none

/-- Claim C1 read literally at one dataset: rows lacking a usable GDP
(null or zero) at the tail of both GDP orders, and the usable rows in
mirror order between the two calls. -/
def claimC1At (store : List Country) : Prop :=
  usableAtTail (list_countries store none none (some .gdp_asc)) ∧
  usableAtTail (list_countries store none none (some .gdp_desc)) ∧
  (list_countries store none none (some .gdp_asc)).filter hasUsableGdp =
    ((list_countries store none none (some .gdp_desc)).filter hasUsableGdp).reverse

/-- Case-insensitive uniqueness of names across the store. -/
def iexactUnique (store : List Country) : Prop :=
  store.Pairwise (fun a b => lowerStr a.name ≠ lowerStr b.name)

instance (l : List Country) : Decidable (usableAtTail l) := by
  unfold usableAtTail
  infer_instance

instance (l : List Country) : Decidable (nullsAtTail l) := by
  unfold nullsAtTail
  infer_instance

instance (store : List Country) : Decidable (claimC1At store) := by
  unfold claimC1At
  infer_instance

/-- A concrete stored row used to exercise the lookup operations. -/
def demoNigeria : Country :=
  ⟨"Nigeria", none, none, 1, none, none, some 1, none, 0⟩

/-- A concrete row with a usable (non-null, non-zero) GDP. -/
def rowUsable : Country := ⟨"A", none, none, 1, none, none, some 100, none, 0⟩

/-- A concrete row whose GDP was uncomputable and was stored as 0, the
way refresh stores it. -/
def rowZero : Country := ⟨"B", none, none, 1, none, none, some 0, none, 0⟩

/-- A concrete row with a NULL GDP column (never written by refresh,
but possible in the table). -/
def rowNull : Country := ⟨"C", none, none, 1, none, none, none, none, 0⟩

/-- A concrete dataset mixing a usable GDP, a zero-stored GDP and a
NULL GDP. -/
def cexStore : List Country := [rowUsable, rowZero, rowNull]

/-! ### Helper lemmas -/

/-- The `estimated_gdp` stored by `processEntry` is the null-to-zero
fallback applied to the computed GDP. -/
theorem processEntry_gdp_eq (e : CountryEntry) (name : String)
    (rates : List (String × ℚ)) (m : ℚ) (t : Nat) :
    (processEntry e name rates m t).estimated_gdp =
      some (match calculate_estimated_gdp e.population
          (processEntry e name rates m t).exchange_rate m with
        | some g => if g = 0 then 0 else g
        | none => 0) := rfl

/-! ### Claims -/

/-- C10: an entry whose name is empty after trimming contributes no
write and no count: the refresh loop on a batch containing it equals
the loop on the batch with it removed, for every store and counter
state. -/
theorem refresh_skips_blank_name (rates : List (String × ℚ)) (ms : Nat → ℚ)
    (t : Nat) (pre : List CountryEntry) (e : CountryEntry)
    (post : List CountryEntry) (store : List Country) (i c u : Nat)
    (h : pyStrip e.name = "") :
    refreshLoop rates ms t (pre ++ e :: post) store i c u =
      refreshLoop rates ms t (pre ++ post) store i c u := by
  induction pre generalizing store i c u with
  | nil => simp [refreshLoop, h]
  | cons p pre ih =>
    by_cases hp : pyStrip p.name = ""
    · simp only [List.cons_append, refreshLoop, if_pos hp]
      exact ih store i c u
    · simp only [List.cons_append, refreshLoop, if_neg hp]
      split
      · exact ih _ _ _ _
      · exact ih _ _ _ _

/-- Witness for C10 at a concrete blank-named entry. -/
theorem refresh_skips_blank_name_witness :
    pyStrip (CountryEntry.mk " " none none 0 none .missing).name = "" ∧
    refreshLoop [] (fun _ => 0) 0
        [CountryEntry.mk " " none none 0 none .missing] [] 0 0 0 =
      refreshLoop [] (fun _ => 0) 0 [] [] 0 0 0 :=
  ⟨by decide,
    refresh_skips_blank_name [] (fun _ => 0) 0 []
      (CountryEntry.mk " " none none 0 none .missing) [] [] 0 0 0 (by decide)⟩

/-- C9: the stored `currency_code` is exactly the extraction result,
and extraction takes the first element of the array (no fallback to
later elements) and yields `none` for an empty, absent, or non-list
currencies value. -/
theorem currency_code_first_element :
    (∀ (e : CountryEntry) (name : String) (rates : List (String × ℚ))
        (m : ℚ) (t : Nat),
      (processEntry e name rates m t).currency_code =
        extract_currency_code e.currencies) ∧
    (∀ (c : CurrencyObj) (cs : List CurrencyObj),
      extract_currency_code (.arr (c :: cs)) = c.code) ∧
    extract_currency_code (.arr []) = none ∧
    extract_currency_code .missing = none ∧
    extract_currency_code .notList = none :=
  ⟨fun _ _ _ _ _ => rfl, fun _ _ => rfl, rfl, rfl, rfl⟩

/-- C4: when the currency code is absent, or its code has no entry in
the rate table, or the table entry is zero, the stored row has no
exchange rate and its `estimated_gdp` is exactly 0. -/
theorem gdp_zero_when_rate_unusable (e : CountryEntry) (name : String)
    (rates : List (String × ℚ)) (m : ℚ) (t : Nat)
    (h : extract_currency_code e.currencies = none ∨
      ∃ c, extract_currency_code e.currencies = some c ∧
        (lookupRate rates c = none ∨ lookupRate rates c = some 0)) :
    (processEntry e name rates m t).exchange_rate = none ∧
    (processEntry e name rates m t).estimated_gdp = some 0 := by
  have hrate : (processEntry e name rates m t).exchange_rate = none := by
    simp only [processEntry]
    rcases h with h | ⟨c, hc, hl⟩
    · simp [h]
    · simp only [hc]
      by_cases hce : c = ""
      · simp [hce]
      · rcases hl with hl | hl <;> simp [hce, hl]
  have hg := processEntry_gdp_eq e name rates m t
  rw [hrate] at hg
  exact ⟨hrate, by simpa [calculate_estimated_gdp] using hg⟩

/-- Witness for C4 at an entry with an empty currencies array. -/
theorem gdp_zero_when_rate_unusable_witness :
    (processEntry (CountryEntry.mk "A" none none 7 none (.arr [])) "A" [] 1500
        3).exchange_rate = none ∧
    (processEntry (CountryEntry.mk "A" none none 7 none (.arr [])) "A" [] 1500
        3).estimated_gdp = some 0 :=
  gdp_zero_when_rate_unusable (CountryEntry.mk "A" none none 7 none (.arr []))
    "A" [] 1500 3 (Or.inl rfl)

/-- Every row of an upserted store is an original row or the upserted
row itself. -/
theorem mem_upsertRow {s : List Country} {row r : Country}
    (h : r ∈ (upsertRow s row).1) : r ∈ s ∨ r = row := by
  induction s with
  | nil =>
    simp only [upsertRow, List.mem_singleton] at h
    exact Or.inr h
  | cons a s ih =>
    simp only [upsertRow] at h
    split at h
    · rcases List.mem_cons.mp h with h | h
      · exact Or.inr h
      · exact Or.inl (List.mem_cons_of_mem _ h)
    · rcases List.mem_cons.mp h with h | h
      · exact Or.inl (by simp [h])
      · rcases ih h with h | h
        · exact Or.inl (List.mem_cons_of_mem _ h)
        · exact Or.inr h

/-- Every row of the store produced by the refresh loop is an original
row or the processed row of some entry, built with the loop timestamp. -/
theorem mem_refreshLoop {rates : List (String × ℚ)} {ms : Nat → ℚ} {t : Nat} :
    ∀ {entries : List CountryEntry} {store : List Country} {i c u : Nat}
      {r : Country}, r ∈ (refreshLoop rates ms t entries store i c u).1 →
      r ∈ store ∨ ∃ e m, r = processEntry e (pyStrip e.name) rates m t := by
  intro entries
  induction entries with
  | nil => intro store i c u r h; exact Or.inl h
  | cons e rest ih =>
    intro store i c u r h
    simp only [refreshLoop] at h
    split at h
    · exact ih h
    · have step : ∀ {st : List Country},
          r ∈ st → st = (upsertRow store
              (processEntry e (pyStrip e.name) rates (ms i) t)).1 →
          r ∈ store ∨ ∃ e2 m, r = processEntry e2 (pyStrip e2.name) rates m t := by
        intro st hst heq
        subst heq
        rcases mem_upsertRow hst with h2 | h2
        · exact Or.inl h2
        · exact Or.inr ⟨e, ms i, h2⟩
      split at h
      · rcases ih h with h2 | h2
        · exact step h2 rfl
        · exact Or.inr h2
      · rcases ih h with h2 | h2
        · exact step h2 rfl
        · exact Or.inr h2

/-- C3: when either external fetch fails, the whole refresh fails with
the upstream-unavailable error, the view reports 503, and the store is
untouched (both fetches are forced before any write). -/
theorem refresh_aborts_on_fetch_failure (store : List Country)
    (cRes : Except String (List CountryEntry))
    (rRes : Except String (List (String × ℚ))) (ms : Nat → ℚ) (t : Nat)
    (h : (∃ msg, cRes = Except.error msg) ∨ (∃ msg, rRes = Except.error msg)) :
    (∃ msg, refresh_countries store cRes rRes ms t = Except.error msg) ∧
    refresh_view store cRes rRes ms t = (503, store) := by
  rcases h with ⟨msg, rfl⟩ | ⟨msg, rfl⟩
  · exact ⟨⟨msg, rfl⟩, rfl⟩
  · cases cRes with
    | error msg2 => exact ⟨⟨msg2, rfl⟩, rfl⟩
    | ok cs => exact ⟨⟨msg, rfl⟩, rfl⟩

/-- Witness for C3 at a concrete failing countries fetch. -/
theorem refresh_aborts_on_fetch_failure_witness :
    (∃ msg, refresh_countries [] (Except.error "boom") (Except.ok [])
        (fun _ => 0) 0 = Except.error msg) ∧
    refresh_view [] (Except.error "boom") (Except.ok []) (fun _ => 0) 0 =
      (503, []) :=
  refresh_aborts_on_fetch_failure [] (Except.error "boom") (Except.ok [])
    (fun _ => 0) 0 (Or.inl ⟨"boom", rfl⟩)

/-- C6: every row written by a successful refresh has a non-null
`estimated_gdp`: each row of the resulting store is either an untouched
original row or carries `some` GDP value. -/
theorem refreshed_rows_gdp_not_null (store : List Country)
    (cRes : Except String (List CountryEntry))
    (rRes : Except String (List (String × ℚ))) (ms : Nat → ℚ) (t : Nat)
    (s : List Country) (res : RefreshResult)
    (h : refresh_countries store cRes rRes ms t = Except.ok (s, res)) :
    ∀ r ∈ s, r ∈ store ∨ ∃ g : ℚ, r.estimated_gdp = some g := by
  cases cRes with
  | error msg => exact absurd h (by simp [refresh_countries])
  | ok cs =>
    cases rRes with
    | error msg => exact absurd h (by simp [refresh_countries])
    | ok rates =>
      have hs : s = (refreshLoop rates ms t cs store 0 0 0).1 := by
        simp only [refresh_countries, Except.ok.injEq, Prod.mk.injEq] at h
        exact h.1.symm
      intro r hr
      rw [hs] at hr
      rcases mem_refreshLoop hr with h2 | ⟨e, m, rfl⟩
      · exact Or.inl h2
      · exact Or.inr ⟨_, rfl⟩

/-- C7: a successful refresh reports the batch timestamp it was given,
and every row it wrote carries exactly that timestamp. -/
theorem batch_timestamp_single (store : List Country)
    (cRes : Except String (List CountryEntry))
    (rRes : Except String (List (String × ℚ))) (ms : Nat → ℚ) (t : Nat)
    (s : List Country) (res : RefreshResult)
    (h : refresh_countries store cRes rRes ms t = Except.ok (s, res)) :
    res.last_refreshed_at = t ∧
    ∀ r ∈ s, r ∈ store ∨ r.last_refreshed_at = t := by
  cases cRes with
  | error msg => exact absurd h (by simp [refresh_countries])
  | ok cs =>
    cases rRes with
    | error msg => exact absurd h (by simp [refresh_countries])
    | ok rates =>
      simp only [refresh_countries, Except.ok.injEq, Prod.mk.injEq] at h
      refine ⟨?_, ?_⟩
      · rw [← h.2]
      · intro r hr
        rw [← h.1] at hr
        rcases mem_refreshLoop hr with h2 | ⟨e, m, rfl⟩
        · exact Or.inl h2
        · exact Or.inr rfl

/-- Witness for C6: a one-entry refresh whose written row stores GDP 0
rather than null. -/
theorem refreshed_rows_gdp_not_null_witness :
    Country.mk "A" none none 0 none none (some 0) none 7 ∈
      ([] : List Country) ∨
    ∃ g : ℚ, (Country.mk "A" none none 0 none none
      (some 0) none 7).estimated_gdp = some g :=
  refreshed_rows_gdp_not_null []
    (Except.ok [CountryEntry.mk "A" none none 0 none .missing])
    (Except.ok []) (fun _ => 1500) 7
    [Country.mk "A" none none 0 none none (some 0) none 7]
    (RefreshResult.mk 1 1 0 7) rfl
    (Country.mk "A" none none 0 none none (some 0) none 7)
    (List.mem_singleton.mpr rfl)

/-- Witness for C7: the same one-entry refresh stamps its row with the
batch timestamp it reports. -/
theorem batch_timestamp_single_witness :
    (RefreshResult.mk 1 1 0 7).last_refreshed_at = 7 ∧
    (Country.mk "A" none none 0 none none (some 0) none 7 ∈
        ([] : List Country) ∨
      (Country.mk "A" none none 0 none none
        (some 0) none 7).last_refreshed_at = 7) :=
  ⟨(batch_timestamp_single []
      (Except.ok [CountryEntry.mk "A" none none 0 none .missing])
      (Except.ok []) (fun _ => 1500) 7
      [Country.mk "A" none none 0 none none (some 0) none 7]
      (RefreshResult.mk 1 1 0 7) rfl).1,
    (batch_timestamp_single []
      (Except.ok [CountryEntry.mk "A" none none 0 none .missing])
      (Except.ok []) (fun _ => 1500) 7
      [Country.mk "A" none none 0 none none (some 0) none 7]
      (RefreshResult.mk 1 1 0 7) rfl).2
      (Country.mk "A" none none 0 none none (some 0) none 7)
      (List.mem_singleton.mpr rfl)⟩

/-- Case-insensitive lookups see only the lowercased name. -/
theorem iexactMatches_congr (store : List Country) {n1 n2 : String}
    (h : lowerStr n1 = lowerStr n2) :
    iexactMatches store n1 = iexactMatches store n2 := by
  simp [iexactMatches, h]

/-- When a name matches exactly one row, deleting it leaves no match
for that name. -/
theorem iexactMatches_deleteFirst {store : List Country} {n : String}
    {c : Country} (h : iexactMatches store n = [c]) :
    iexactMatches (deleteFirstIexact store n) n = [] := by
  induction store with
  | nil => simp [iexactMatches] at h
  | cons r rs ih =>
    by_cases hr : lowerStr r.name = lowerStr n
    · simp only [iexactMatches, List.filter_cons, beq_iff_eq, if_pos hr] at h
      simp only [deleteFirstIexact, if_pos hr]
      simpa [iexactMatches] using (List.cons_eq_cons.mp h).2
    · simp only [iexactMatches, List.filter_cons, beq_iff_eq, if_neg hr] at h
      simp only [deleteFirstIexact, if_neg hr]
      simpa [iexactMatches, List.filter_cons, hr] using ih (by simpa [iexactMatches] using h)

/-- `objects.get` succeeds exactly on a unique case-insensitive match. -/
theorem objectsGet_found {store : List Country} {n : String} {c : Country}
    (h : objectsGet store n = .found c) : iexactMatches store n = [c] := by
  cases hm : iexactMatches store n with
  | nil => rw [objectsGet, hm] at h; exact GetOutcome.noConfusion h
  | cons a l =>
    cases l with
    | nil =>
      rw [objectsGet, hm] at h
      rw [GetOutcome.found.injEq] at h
      rw [h]
    | cons b l2 => rw [objectsGet, hm] at h; exact GetOutcome.noConfusion h

/-- C8: `GET` and `DELETE /countries/:name` match case-insensitively
(equal lowercased names give identical responses), both answer 404 when
no row matches, and after a successful delete both a lookup and a second
delete of the same name answer 404. -/
theorem detail_lookup_case_insensitive (store : List Country)
    (n1 n2 n : String) :
    (lowerStr n1 = lowerStr n2 →
      country_detail_get store n1 = country_detail_get store n2) ∧
    (iexactMatches store n = [] →
      country_detail_get store n = (404, none) ∧
      country_detail_delete store n = (404, store)) ∧
    (∀ s, country_detail_delete store n = (200, s) →
      country_detail_get s n = (404, none) ∧
      country_detail_delete s n = (404, s)) := by
  refine ⟨?_, ?_, ?_⟩
  · intro h
    rw [country_detail_get, country_detail_get, objectsGet, objectsGet,
      iexactMatches_congr store h]
  · intro h
    rw [country_detail_get, country_detail_delete, objectsGet, h]
    exact ⟨rfl, rfl⟩
  · intro s h
    cases hg : objectsGet store n with
    | notFound => rw [country_detail_delete, hg] at h; simp at h
    | multiple => rw [country_detail_delete, hg] at h; simp at h
    | found c =>
      rw [country_detail_delete, hg, Prod.mk.injEq] at h
      have hempty : iexactMatches s n = [] := by
        rw [← h.2]
        exact iexactMatches_deleteFirst (objectsGet_found hg)
      rw [country_detail_get, country_detail_delete, objectsGet, hempty]
      exact ⟨rfl, rfl⟩

/-- Witness for C8 on a one-row store holding "Nigeria". -/
theorem detail_lookup_case_insensitive_witness :
    (country_detail_get [demoNigeria] "NIGERIA" =
      country_detail_get [demoNigeria] "nigeria") ∧
    (country_detail_get [demoNigeria] "Ghana" = (404, none) ∧
      country_detail_delete [demoNigeria] "Ghana" = (404, [demoNigeria])) ∧
    (country_detail_get [] "NIGERIA" = (404, none) ∧
      country_detail_delete ([] : List Country) "NIGERIA" = (404, [])) :=
  ⟨(detail_lookup_case_insensitive [demoNigeria] "NIGERIA" "nigeria" "Ghana").1
      (by decide),
    (detail_lookup_case_insensitive [demoNigeria] "NIGERIA" "nigeria"
        "Ghana").2.1 (by decide),
    (detail_lookup_case_insensitive [demoNigeria] "NIGERIA" "nigeria"
        "NIGERIA").2.2 [] (by decide)⟩

/-- The case-insensitive upsert preserves case-insensitive uniqueness
of names. -/
theorem upsertRow_iexactUnique {s : List Country} {row : Country}
    (h : iexactUnique s) : iexactUnique (upsertRow s row).1 := by
  induction s with
  | nil => simp [upsertRow, iexactUnique]
  | cons a s ih =>
    rcases List.pairwise_cons.mp h with ⟨h1, h2⟩
    by_cases hc : lowerStr a.name = lowerStr row.name
    · simp only [upsertRow, if_pos hc]
      refine List.pairwise_cons.mpr ⟨?_, h2⟩
      intro b hb
      rw [← hc]
      exact h1 b hb
    · simp only [upsertRow, if_neg hc]
      refine List.pairwise_cons.mpr ⟨?_, ih h2⟩
      intro b hb
      rcases mem_upsertRow hb with hb | rfl
      · exact h1 b hb
      · exact hc

/-- On a case-insensitively unique store, after upserting a row the
lookup of its name sees exactly that row. -/
theorem upsertRow_matches_self {s : List Country} {row : Country} {n : String}
    (hn : lowerStr n = lowerStr row.name) (h : iexactUnique s) :
    iexactMatches (upsertRow s row).1 n = [row] := by
  induction s with
  | nil => simp [upsertRow, iexactMatches, hn]
  | cons a s ih =>
    rcases List.pairwise_cons.mp h with ⟨h1, h2⟩
    by_cases hc : lowerStr a.name = lowerStr row.name
    · simp only [upsertRow, if_pos hc]
      have hrow : (lowerStr row.name == lowerStr n) = true := by
        rw [hn]
        exact beq_self_eq_true _
      have hnil : List.filter (fun r => lowerStr r.name == lowerStr n) s = [] := by
        refine List.filter_eq_nil_iff.mpr ?_
        intro b hb
        simp only [beq_iff_eq, hn, ← hc]
        intro hbe
        exact h1 b hb hbe.symm
      simp [iexactMatches, List.filter_cons, hrow, hnil]
    · simp only [upsertRow, if_neg hc]
      have ha : (lowerStr a.name == lowerStr n) = false := by
        rw [hn]
        exact beq_eq_false_iff_ne.mpr hc
      simp only [iexactMatches, List.filter_cons, ha]
      simpa [iexactMatches] using ih h2

/-- Upserting a row leaves the lookups of every other name unchanged. -/
theorem upsertRow_matches_other {s : List Country} {row : Country} {n : String}
    (hn : lowerStr n ≠ lowerStr row.name) :
    iexactMatches (upsertRow s row).1 n = iexactMatches s n := by
  have hrow : (lowerStr row.name == lowerStr n) = false :=
    beq_eq_false_iff_ne.mpr (fun he => hn he.symm)
  induction s with
  | nil => simp [upsertRow, iexactMatches, hrow]
  | cons a s ih =>
    by_cases hc : lowerStr a.name = lowerStr row.name
    · have ha : (lowerStr a.name == lowerStr n) = false := by
        rw [hc]
        exact hrow
      simp only [upsertRow, if_pos hc]
      simp [iexactMatches, List.filter_cons, ha, hrow]
    · simp only [upsertRow, if_neg hc]
      by_cases ha : (lowerStr a.name == lowerStr n) = true
      · simp only [iexactMatches, List.filter_cons, ha]
        simpa [iexactMatches] using ih
      · simp only [iexactMatches, List.filter_cons,
          Bool.eq_false_iff.mpr ha]
        simpa [iexactMatches] using ih

/-- The refresh loop preserves case-insensitive uniqueness of names. -/
theorem refreshLoop_iexactUnique {rates : List (String × ℚ)} {ms : Nat → ℚ}
    {t : Nat} : ∀ {entries : List CountryEntry} {store : List Country}
    {i c u : Nat}, iexactUnique store →
    iexactUnique (refreshLoop rates ms t entries store i c u).1 := by
  intro entries
  induction entries with
  | nil => intro store i c u h; exact h
  | cons e rest ih =>
    intro store i c u h
    simp only [refreshLoop]
    split
    · exact ih h
    · split
      · exact ih (upsertRow_iexactUnique h)
      · exact ih (upsertRow_iexactUnique h)

/-- A batch whose every entry is skipped or differs case-insensitively
from `n` leaves the lookups of `n` unchanged. -/
theorem refreshLoop_matches_other {rates : List (String × ℚ)} {ms : Nat → ℚ}
    {t : Nat} {n : String} : ∀ {entries : List CountryEntry}
    {store : List Country} {i c u : Nat},
    (∀ f ∈ entries, pyStrip f.name = "" ∨
      lowerStr (pyStrip f.name) ≠ lowerStr n) →
    iexactMatches (refreshLoop rates ms t entries store i c u).1 n =
      iexactMatches store n := by
  intro entries
  induction entries with
  | nil => intro store i c u _; rfl
  | cons e rest ih =>
    intro store i c u hall
    have he := hall e (List.mem_cons_self e rest)
    have hrest := fun f hf => hall f (List.mem_cons_of_mem e hf)
    simp only [refreshLoop]
    split
    · exact ih hrest
    · rename_i hskip
      have hne : lowerStr n ≠
          lowerStr (processEntry e (pyStrip e.name) rates (ms i) t).name := by
        rcases he with he | he
        · exact absurd he hskip
        · exact fun hx => he hx.symm
      split
      · rw [ih hrest, upsertRow_matches_other hne]
      · rw [ih hrest, upsertRow_matches_other hne]

/-- After processing a batch containing a non-skipped entry `e` with no
later entry of the same case-folded name, the lookup of the name of `e`
finds exactly one row, displaying the casing written by `e`. -/
theorem refreshLoop_last_write_wins {rates : List (String × ℚ)} {ms : Nat → ℚ}
    {t : Nat} {e : CountryEntry} {post : List CountryEntry}
    (hne : pyStrip e.name ≠ "")
    (hlast : ∀ f ∈ post, pyStrip f.name = "" ∨
      lowerStr (pyStrip f.name) ≠ lowerStr (pyStrip e.name)) :
    ∀ (pre : List CountryEntry) {store : List Country} {i c u : Nat},
    iexactUnique store →
    ∃ row, iexactMatches
        (refreshLoop rates ms t (pre ++ e :: post) store i c u).1
        (pyStrip e.name) = [row] ∧ row.name = pyStrip e.name := by
  intro pre
  induction pre with
  | nil =>
    intro store i c u huniq
    simp only [List.nil_append, refreshLoop, if_neg hne]
    have hself : ∀ {st : List Country}, iexactUnique st → ∀ j,
        iexactMatches (upsertRow st
          (processEntry e (pyStrip e.name) rates (ms j) t)).1
          (pyStrip e.name) =
          [processEntry e (pyStrip e.name) rates (ms j) t] :=
      fun hu _ => upsertRow_matches_self rfl hu
    split
    · exact ⟨processEntry e (pyStrip e.name) rates (ms i) t,
        by rw [refreshLoop_matches_other hlast, hself huniq i], rfl⟩
    · exact ⟨processEntry e (pyStrip e.name) rates (ms i) t,
        by rw [refreshLoop_matches_other hlast, hself huniq i], rfl⟩
  | cons p pre ih =>
    intro store i c u huniq
    simp only [List.cons_append, refreshLoop]
    split
    · exact ih huniq
    · split
      · exact ih (upsertRow_iexactUnique huniq)
      · exact ih (upsertRow_iexactUnique huniq)

/-- C2: on a case-insensitively unique store, a refresh batch keeps
names unique ignoring case, and two batch entries whose names differ
only in case collapse to one stored row that displays the casing of the
most recently processed entry. -/
theorem batch_collapses_case_variants (rates : List (String × ℚ))
    (ms : Nat → ℚ) (t : Nat) (store : List Country)
    (pre : List CountryEntry) (e : CountryEntry) (post : List CountryEntry)
    (i c u : Nat) (hne : pyStrip e.name ≠ "")
    (hlast : ∀ f ∈ post, pyStrip f.name = "" ∨
      lowerStr (pyStrip f.name) ≠ lowerStr (pyStrip e.name))
    (huniq : iexactUnique store) :
    iexactUnique (refreshLoop rates ms t (pre ++ e :: post) store i c u).1 ∧
    ∃ row, iexactMatches
        (refreshLoop rates ms t (pre ++ e :: post) store i c u).1
        (pyStrip e.name) = [row] ∧ row.name = pyStrip e.name :=
  ⟨refreshLoop_iexactUnique huniq,
    refreshLoop_last_write_wins hne hlast pre huniq⟩

/-- Witness for C2: a batch upserting "Nigeria" then "nigeria" into an
empty store. -/
theorem batch_collapses_case_variants_witness :
    iexactUnique (refreshLoop [] (fun _ => 1500) 9
        ([CountryEntry.mk "Nigeria" none none 5 none .missing] ++
          CountryEntry.mk "nigeria" none none 6 none .missing :: []) [] 0 0 0).1 ∧
    ∃ row, iexactMatches (refreshLoop [] (fun _ => 1500) 9
        ([CountryEntry.mk "Nigeria" none none 5 none .missing] ++
          CountryEntry.mk "nigeria" none none 6 none .missing :: []) [] 0 0 0).1
        (pyStrip (CountryEntry.mk "nigeria" none none 6 none .missing).name) =
        [row] ∧
      row.name = pyStrip (CountryEntry.mk "nigeria" none none 6 none .missing).name :=
  batch_collapses_case_variants [] (fun _ => 1500) 9 []
    [CountryEntry.mk "Nigeria" none none 5 none .missing]
    (CountryEntry.mk "nigeria" none none 6 none .missing) [] 0 0 0
    (by decide) (fun f hf => absurd hf (List.not_mem_nil f)) List.Pairwise.nil

/-- Counterexample to C1 as stated: on a dataset holding a usable GDP
row, a zero-stored GDP row and a NULL GDP row, the ascending GDP sort
places the zero row first, not at the tail, because only SQL NULLs are
forced last by `nulls_last=True` while a stored 0 sorts as the value 0. -/
theorem gdp_sort_zero_counterexample : ¬ claimC1At cexStore := by decide

/-- The ascending nulls-last sort key determines the stored GDP. -/
theorem gdpKeyAsc_inj {a b : Country} (h : gdpKeyAsc a = gdpKeyAsc b) :
    a.estimated_gdp = b.estimated_gdp := by
  unfold gdpKeyAsc at h
  cases ha : a.estimated_gdp with
  | none =>
    cases hb : b.estimated_gdp with
    | none => rfl
    | some y =>
      simp only [ha, hb] at h
      exact absurd h.symm WithTop.coe_ne_top
  | some x =>
    cases hb : b.estimated_gdp with
    | none =>
      simp only [ha, hb] at h
      exact absurd h WithTop.coe_ne_top
    | some y =>
      simp only [ha, hb, WithTop.coe_eq_coe] at h
      rw [h]

/-- A list sorted ascending-nulls-last keeps its NULL rows at the
tail. -/
theorem nullsAtTail_of_sorted_asc {l : List Country}
    (h : l.Sorted gdpAscLe) : nullsAtTail l := by
  intro i j hij hnone
  have hle := h.rel_get_of_lt hij
  unfold gdpAscLe at hle
  have hnone2 : l[(i : Nat)].estimated_gdp = none := hnone
  have hi : gdpKeyAsc (l.get i) = ⊤ := by simp [gdpKeyAsc, hnone2]
  rw [hi, top_le_iff] at hle
  cases hj : (l.get j).estimated_gdp with
  | none => rfl
  | some y =>
    have hj2 : l[(j : Nat)].estimated_gdp = some y := hj
    rw [show gdpKeyAsc (l.get j) = (y : WithTop ℚ) by
      simp [gdpKeyAsc, hj2]] at hle
    exact absurd hle WithTop.coe_ne_top

/-- A list sorted descending-nulls-last keeps its NULL rows at the
tail. -/
theorem nullsAtTail_of_sorted_desc {l : List Country}
    (h : l.Sorted gdpDescLe) : nullsAtTail l := by
  intro i j hij hnone
  have hle := h.rel_get_of_lt hij
  unfold gdpDescLe at hle
  have hnone2 : l[(i : Nat)].estimated_gdp = none := hnone
  have hi : gdpKeyDesc (l.get i) = ⊤ := by simp [gdpKeyDesc, hnone2]
  rw [hi, top_le_iff] at hle
  cases hj : (l.get j).estimated_gdp with
  | none => rfl
  | some y =>
    have hj2 : l[(j : Nat)].estimated_gdp = some y := hj
    rw [show gdpKeyDesc (l.get j) = ((-y : ℚ) : WithTop ℚ) by
      simp [gdpKeyDesc, hj2]] at hle
    exact absurd hle WithTop.coe_ne_top

/-- C1 (amended): both GDP sorts place rows with a NULL `estimated_gdp`
at the tail, and, provided the non-null GDP values are pairwise
distinct, the non-null rows (a stored 0 included) of the ascending
result are the reverse of those of the descending result.  A stored 0
is a value, not a NULL: it sorts ahead of positive GDPs in ascending
order rather than at the tail. -/
theorem gdp_sort_nulls_last_and_mirror (store : List Country)
    (hdist : (store.filter (fun r => r.estimated_gdp.isSome)).Pairwise
      (fun a b => a.estimated_gdp ≠ b.estimated_gdp)) :
    nullsAtTail (list_countries store none none (some .gdp_asc)) ∧
    nullsAtTail (list_countries store none none (some .gdp_desc)) ∧
    (list_countries store none none (some .gdp_asc)).filter
        (fun r => r.estimated_gdp.isSome) =
      ((list_countries store none none (some .gdp_desc)).filter
        (fun r => r.estimated_gdp.isSome)).reverse := by
  have hasc : list_countries store none none (some .gdp_asc) =
      store.insertionSort gdpAscLe := rfl
  have hdesc : list_countries store none none (some .gdp_desc) =
      store.insertionSort gdpDescLe := rfl
  rw [hasc, hdesc]
  have hsortA := List.sorted_insertionSort gdpAscLe store
  have hsortD := List.sorted_insertionSort gdpDescLe store
  have hpermA := List.perm_insertionSort gdpAscLe store
  have hpermD := List.perm_insertionSort gdpDescLe store
  refine ⟨nullsAtTail_of_sorted_asc hsortA,
    nullsAtTail_of_sorted_desc hsortD, ?_⟩
  have hsymm : Symmetric (fun a b : Country =>
      a.estimated_gdp ≠ b.estimated_gdp) := fun a b h he => h he.symm
  have hS : ∀ {x y : Country}, x.estimated_gdp ≠ y.estimated_gdp →
      y.estimated_gdp ≠ x.estimated_gdp := fun h he => h he.symm
  have hperm1 := hpermA.filter (fun r => r.estimated_gdp.isSome)
  have hperm2 := hpermD.filter (fun r => r.estimated_gdp.isSome)
  have hperm : ((store.insertionSort gdpAscLe).filter
      (fun r => r.estimated_gdp.isSome)).Perm
      (((store.insertionSort gdpDescLe).filter
        (fun r => r.estimated_gdp.isSome)).reverse) :=
    hperm1.trans (hperm2.symm.trans (List.reverse_perm _).symm)
  have hneA := (hperm1.pairwise_iff hS).mpr hdist
  have hpwA : ((store.insertionSort gdpAscLe).filter
      (fun r => r.estimated_gdp.isSome)).Pairwise gdpAscLe :=
    List.Pairwise.filter _ hsortA
  have hpwD : ((store.insertionSort gdpDescLe).filter
      (fun r => r.estimated_gdp.isSome)).Pairwise gdpDescLe :=
    List.Pairwise.filter _ hsortD
  have hmemD : ∀ x ∈ ((store.insertionSort gdpDescLe).filter
      (fun r => r.estimated_gdp.isSome)).reverse,
      x.estimated_gdp.isSome = true := by
    intro x hx
    exact (List.mem_filter.mp (List.mem_reverse.mp hx)).2
  have hpwDrev : (((store.insertionSort gdpDescLe).filter
      (fun r => r.estimated_gdp.isSome)).reverse).Pairwise
      (fun a b => gdpDescLe b a) := List.pairwise_reverse.mpr hpwD
  have hpwDrev2 : (((store.insertionSort gdpDescLe).filter
      (fun r => r.estimated_gdp.isSome)).reverse).Pairwise gdpAscLe := by
    refine List.Pairwise.imp_of_mem ?_ hpwDrev
    intro a b ha hb hrel
    obtain ⟨x, hx⟩ := Option.isSome_iff_exists.mp (hmemD a ha)
    obtain ⟨y, hy⟩ := Option.isSome_iff_exists.mp (hmemD b hb)
    unfold gdpDescLe gdpKeyDesc at hrel
    simp only [hx, hy] at hrel
    unfold gdpAscLe gdpKeyAsc
    simp only [hx, hy]
    rw [WithTop.coe_le_coe] at hrel ⊢
    linarith
  refine List.Perm.eq_of_sorted ?_ hpwA hpwDrev2 hperm
  intro a b ha hb hab hba
  have hgdp := gdpKeyAsc_inj (le_antisymm hab hba)
  by_contra hne
  have hbA : b ∈ (store.insertionSort gdpAscLe).filter
      (fun r => r.estimated_gdp.isSome) := hperm.mem_iff.mpr hb
  exact absurd hgdp (hneA.forall hsymm ha hbA hne)

/-- Witness for the amended C1 on the mixed dataset. -/
theorem gdp_sort_nulls_last_and_mirror_witness :
    nullsAtTail (list_countries cexStore none none (some .gdp_asc)) ∧
    nullsAtTail (list_countries cexStore none none (some .gdp_desc)) ∧
    (list_countries cexStore none none (some .gdp_asc)).filter
        (fun r => r.estimated_gdp.isSome) =
      ((list_countries cexStore none none (some .gdp_desc)).filter
        (fun r => r.estimated_gdp.isSome)).reverse :=
  gdp_sort_nulls_last_and_mirror cexStore (by decide)

/-- Half-even rounding moves a rational by at most one half. -/
theorem roundHalfEven_bounds (q : ℚ) :
    q - 1/2 ≤ (roundHalfEven q : ℚ) ∧ (roundHalfEven q : ℚ) ≤ q + 1/2 := by
  have h1 : (⌊q⌋ : ℚ) ≤ q := Int.floor_le q
  have h2 : q < ⌊q⌋ + 1 := Int.lt_floor_add_one q
  by_cases hlt : q - ⌊q⌋ < 1/2
  · simp only [roundHalfEven, if_pos hlt]
    constructor <;> linarith
  · by_cases hgt : (1 : ℚ)/2 < q - ⌊q⌋
    · simp only [roundHalfEven, if_neg hlt, if_pos hgt]
      push_cast
      constructor <;> linarith
    · have heq : q - ⌊q⌋ = 1/2 :=
        le_antisymm (le_of_not_lt hgt) (le_of_not_lt hlt)
      by_cases hev : ⌊q⌋ % 2 = 0
      · simp only [roundHalfEven, if_neg hlt, if_neg hgt, if_pos hev]
        constructor <;> linarith
      · simp only [roundHalfEven, if_neg hlt, if_neg hgt, if_neg hev]
        push_cast
        constructor <;> linarith

/-- Quantizing to two decimals moves a rational by at most 1/200. -/
theorem round2_bounds (q : ℚ) :
    q - 1/200 ≤ round2 q ∧ round2 q ≤ q + 1/200 := by
  obtain ⟨h1, h2⟩ := roundHalfEven_bounds (q * 100)
  unfold round2
  constructor <;> linarith

/-- C5: with a present non-zero rate and a multiplier in [1000, 2000),
the estimated GDP is exactly `population * m / rate` rounded to two
decimals, and lies between `population * 1000 / rate` and
`population * 2000 / rate` up to the final rounding. -/
theorem estimated_gdp_formula_bounds (pop : Nat) (rate m : ℚ)
    (hr : rate ≠ 0) (hm1 : 1000 ≤ m) (hm2 : m < 2000) :
    ∃ g, calculate_estimated_gdp pop (some rate) m = some g ∧
      g = round2 ((pop : ℚ) * m / rate) ∧
      min ((pop : ℚ) * 1000 / rate) ((pop : ℚ) * 2000 / rate) - 1/200 ≤ g ∧
      g ≤ max ((pop : ℚ) * 1000 / rate) ((pop : ℚ) * 2000 / rate) + 1/200 := by
  have hP : (0 : ℚ) ≤ (pop : ℚ) := Nat.cast_nonneg pop
  have hmul1 : (pop : ℚ) * 1000 ≤ (pop : ℚ) * m :=
    mul_le_mul_of_nonneg_left hm1 hP
  have hmul2 : (pop : ℚ) * m ≤ (pop : ℚ) * 2000 :=
    mul_le_mul_of_nonneg_left (le_of_lt hm2) hP
  obtain ⟨hb1, hb2⟩ := round2_bounds ((pop : ℚ) * m / rate)
  have hmid : min ((pop : ℚ) * 1000 / rate) ((pop : ℚ) * 2000 / rate) ≤
      (pop : ℚ) * m / rate ∧
      (pop : ℚ) * m / rate ≤
        max ((pop : ℚ) * 1000 / rate) ((pop : ℚ) * 2000 / rate) := by
    rcases hr.lt_or_lt with hneg | hpos
    · constructor
      · exact le_trans (min_le_right _ _)
          ((div_le_div_right_of_neg hneg).mpr hmul2)
      · exact le_trans ((div_le_div_right_of_neg hneg).mpr hmul1)
          (le_max_left _ _)
    · constructor
      · exact le_trans (min_le_left _ _)
          ((div_le_div_iff_of_pos_right hpos).mpr hmul1)
      · exact le_trans ((div_le_div_iff_of_pos_right hpos).mpr hmul2)
          (le_max_right _ _)
  refine ⟨round2 ((pop : ℚ) * m / rate), ?_, rfl, ?_, ?_⟩
  · simp [calculate_estimated_gdp, hr]
  · linarith [hmid.1]
  · linarith [hmid.2]

/-- Witness for C5 at the worked example from the spec: population
200000000, rate 1600, a fixed multiplier 1500. -/
theorem estimated_gdp_formula_bounds_witness :
    ∃ g, calculate_estimated_gdp 200000000 (some 1600) 1500 = some g ∧
      g = round2 ((200000000 : ℚ) * 1500 / 1600) ∧
      min ((200000000 : ℚ) * 1000 / 1600)
          ((200000000 : ℚ) * 2000 / 1600) - 1/200 ≤ g ∧
      g ≤ max ((200000000 : ℚ) * 1000 / 1600)
          ((200000000 : ℚ) * 2000 / 1600) + 1/200 :=
  estimated_gdp_formula_bounds 200000000 1600 1500 (by norm_num)
    (by norm_num) (by norm_num)
